import Mathlib

/-!
# Verification of the code-health-meter dependency/coupling/modularity engine

Shallow embedding of the coupling auditor (`src/kernel/coupling/CodeCouplingAuditor.js`),
the modularity auditor (`src/kernel/modularity/CodeModularityAuditor.js`) and the
spec-described graph components, together with theorems settling the frozen claims.

Module identifiers are strings; a raw adjacency mapping (a JS object
`Record<module, module[]>`) is embedded as an association list that preserves
the object's key order.
-/

/-- A raw adjacency mapping: module → list of modules it directly imports,
in declaration order (JS object key order). -/
abbrev DepTree := List (String × List String)

/-- Keys of the adjacency mapping, in order (`Object.keys(tree)`). -/
def treeKeys (tree : DepTree) : List String := tree.map Prod.fst

/-- JS `Number.prototype.toFixed(2)` on a nonnegative rational: the value
rounded to the nearest hundredth, ties away from zero (for nonnegative input,
ties upward): `n` is the integer with `n / 100` closest to `q`, the larger `n`
on a tie. -/
def jsToFixed2 (q : ℚ) : ℚ := (⌊q * 100 + 1/2⌋ : ℤ) / 100

/-- `CodeCouplingAuditor.startAudit`, afferent-coupling scan for `file`:
`dependenciesCouplingReports.filter(item => item.file !== file &&
item.dependencies?.includes(file)).length`.  The reports list ranges over
exactly the entries of the adjacency mapping. -/
def afferentCoupling (tree : DepTree) (file : String) : Nat :=
  (tree.filter (fun item => item.1 != file && item.2.contains file)).length

/-- One per-module coupling report, as produced by the loop in
`CodeCouplingAuditor.startAudit`. The source stores `instabilityIndex` as the
string returned by `toFixed(2)`; the model keeps the rounded rational value. -/
structure CouplingReport where
  file : String
  dependencies : List String
  efferentCoupling : Nat
  afferentCoupling : Nat
  instabilityIndex : ℚ
deriving DecidableEq, Repr

/-- `instabilityIndex = ((efferentCoupling / (efferentCoupling + afferentCoupling)) || 0).toFixed(2)`:
in JS, `0/0` is `NaN` and `NaN || 0` is `0`, so a zero denominator yields `0`;
otherwise the quotient is rounded to two decimal places. -/
def instabilityIndex (eff aff : Nat) : ℚ :=
  if eff + aff = 0 then 0 else jsToFixed2 ((eff : ℚ) / ((eff : ℚ) + (aff : ℚ)))

/-- The report the `startAudit` loop builds for one entry `(file, dependencies)`
of the adjacency mapping `tree`. -/
def mkCouplingReport (tree : DepTree) (it : String × List String) : CouplingReport :=
  { file := it.1
    dependencies := it.2
    efferentCoupling := it.2.length
    afferentCoupling := afferentCoupling tree it.1
    instabilityIndex := instabilityIndex it.2.length (afferentCoupling tree it.1) }

/-- All coupling reports of `CodeCouplingAuditor.startAudit` for an adjacency
mapping: one report per entry, in key order. -/
def couplingReports (tree : DepTree) : List CouplingReport :=
  tree.map (mkCouplingReport tree)

/-- Sum of `efferentCoupling` over all reports. -/
def sumEfferent (tree : DepTree) : Nat :=
  ((couplingReports tree).map (fun r => r.efferentCoupling)).sum

/-- Sum of `afferentCoupling` over all reports. -/
def sumAfferent (tree : DepTree) : Nat :=
  ((couplingReports tree).map (fun r => r.afferentCoupling)).sum

/-- The result record of `normalizeProjectTree`. -/
structure NormalizedTree where
  nodes : List String
  edges : List (String × String)
deriving DecidableEq, Repr

/-- `CodeModularityAuditor.normalizeProjectTree`: the empty mapping yields
`{nodes: [], edges: []}`; otherwise a left fold (JS `reduce`) appends each key
to `nodes` and each `(key, dependency)` pair to `edges` in declaration order. -/
def normalizeProjectTree (tree : DepTree) : NormalizedTree :=
  if tree.length = 0 then { nodes := [], edges := [] }
  else tree.foldl
    (fun acc it =>
      { nodes := acc.nodes ++ [it.1]
        edges := acc.edges ++ it.2.map (fun child => (it.1, child)) })
    { nodes := [], edges := [] }

/-- Total number of `(module, dependency)` pairs of the mapping. -/
def edgePairCount (tree : DepTree) : Nat :=
  (normalizeProjectTree tree).edges.length

lemma jsToFixed2_nonneg {q : ℚ} (hq : 0 ≤ q) : 0 ≤ jsToFixed2 q := by
  unfold jsToFixed2
  have h : (0 : ℚ) ≤ q * 100 + 1/2 := by positivity
  have h2 : (0 : ℤ) ≤ ⌊q * 100 + 1/2⌋ := Int.floor_nonneg.mpr h
  have h3 : (0 : ℚ) ≤ (⌊q * 100 + 1/2⌋ : ℤ) := by exact_mod_cast h2
  positivity

lemma jsToFixed2_le_one {q : ℚ} (hq : q ≤ 1) : jsToFixed2 q ≤ 1 := by
  unfold jsToFixed2
  have h : q * 100 + 1/2 < (101 : ℤ) := by push_cast; linarith
  have h2 : ⌊q * 100 + 1/2⌋ < 101 := Int.floor_lt.mpr h
  have h3 : ((⌊q * 100 + 1/2⌋ : ℤ) : ℚ) ≤ 100 := by exact_mod_cast Int.lt_add_one_iff.mp h2
  linarith

lemma jsToFixed2_mul_hundred_den (q : ℚ) : (jsToFixed2 q * 100).den = 1 := by
  unfold jsToFixed2
  have h : ((⌊q * 100 + 1/2⌋ : ℤ) : ℚ) / 100 * 100 = ((⌊q * 100 + 1/2⌋ : ℤ) : ℚ) := by
    field_simp
  rw [h]
  exact Rat.den_intCast _

lemma instabilityIndex_eq (eff aff : Nat) :
    instabilityIndex eff aff =
      if eff + aff = 0 then 0
      else jsToFixed2 ((eff : ℚ) / ((eff : ℚ) + (aff : ℚ))) := rfl

lemma instabilityIndex_nonneg (eff aff : Nat) : 0 ≤ instabilityIndex eff aff := by
  unfold instabilityIndex
  split
  · exact le_refl 0
  · exact jsToFixed2_nonneg (by positivity)

lemma instabilityIndex_le_one (eff aff : Nat) : instabilityIndex eff aff ≤ 1 := by
  unfold instabilityIndex
  split
  · exact zero_le_one
  · rename_i h
    apply jsToFixed2_le_one
    have hpos : (0 : ℚ) < (eff : ℚ) + (aff : ℚ) := by
      have : 0 < eff + aff := Nat.pos_of_ne_zero h
      exact_mod_cast this
    rw [div_le_one hpos]
    have : (0 : ℚ) ≤ (aff : ℚ) := by positivity
    linarith

lemma instabilityIndex_den (eff aff : Nat) : (instabilityIndex eff aff * 100).den = 1 := by
  unfold instabilityIndex
  split
  · norm_num
  · exact jsToFixed2_mul_hundred_den _

-- quick sanity examples (coupling)
example : (couplingReports [("a", ["a"])]).map (fun r => r.afferentCoupling) = [0] := by decide

example : sumEfferent [("a", ["b"])] = 1 := by decide
example : sumAfferent [("a", ["b"])] = 0 := by decide

example : normalizeProjectTree [("a", ["b", "c"]), ("b", [])] =
    { nodes := ["a", "b"], edges := [("a", "b"), ("a", "c")] } := by decide

example : instabilityIndex 1 1 = 1/2 := by
  simp only [instabilityIndex, jsToFixed2]
  norm_num

/-- C1: every coupling report's `instabilityIndex` equals
`efferentCoupling / (efferentCoupling + afferentCoupling)` rounded to two
decimal places, is `0` when the denominator is `0`, carries exactly two decimal
places (one hundred times it is an integer), always lies in `[0,1]`, and an
isolated module (no dependencies and no dependents) gets index `0`. -/
theorem coupling_instability_spec (tree : DepTree) (r : CouplingReport)
    (hr : r ∈ couplingReports tree) :
    r.instabilityIndex =
      (if r.efferentCoupling + r.afferentCoupling = 0 then 0
       else jsToFixed2 ((r.efferentCoupling : ℚ) /
         ((r.efferentCoupling : ℚ) + (r.afferentCoupling : ℚ))))
    ∧ (r.instabilityIndex * 100).den = 1
    ∧ 0 ≤ r.instabilityIndex
    ∧ r.instabilityIndex ≤ 1
    ∧ (r.dependencies = [] ∧ r.afferentCoupling = 0 → r.instabilityIndex = 0) := by
  unfold couplingReports at hr
  obtain ⟨it, hit, rfl⟩ := List.mem_map.mp hr
  refine ⟨instabilityIndex_eq _ _, instabilityIndex_den _ _,
    instabilityIndex_nonneg _ _, instabilityIndex_le_one _ _, ?_⟩
  rintro ⟨hdeps, haff⟩
  simp only [mkCouplingReport] at hdeps haff ⊢
  rw [hdeps] at *
  simp only [List.length_nil, instabilityIndex, haff]
  norm_num

/-- C1 witness: the report of `"a"` in the mapping `a → [b], b → []`. -/
theorem coupling_instability_spec_w :
    (mkCouplingReport [("a", ["b"]), ("b", [])] ("a", ["b"])
        ∈ couplingReports [("a", ["b"]), ("b", [])])
    ∧ ((mkCouplingReport [("a", ["b"]), ("b", [])] ("a", ["b"])).instabilityIndex =
        (if (mkCouplingReport [("a", ["b"]), ("b", [])] ("a", ["b"])).efferentCoupling +
            (mkCouplingReport [("a", ["b"]), ("b", [])] ("a", ["b"])).afferentCoupling = 0 then 0
         else jsToFixed2
           (((mkCouplingReport [("a", ["b"]), ("b", [])] ("a", ["b"])).efferentCoupling : ℚ) /
            (((mkCouplingReport [("a", ["b"]), ("b", [])] ("a", ["b"])).efferentCoupling : ℚ) +
             ((mkCouplingReport [("a", ["b"]), ("b", [])] ("a", ["b"])).afferentCoupling : ℚ))))
      ∧ ((mkCouplingReport [("a", ["b"]), ("b", [])] ("a", ["b"])).instabilityIndex * 100).den = 1
      ∧ 0 ≤ (mkCouplingReport [("a", ["b"]), ("b", [])] ("a", ["b"])).instabilityIndex
      ∧ (mkCouplingReport [("a", ["b"]), ("b", [])] ("a", ["b"])).instabilityIndex ≤ 1
      ∧ ((mkCouplingReport [("a", ["b"]), ("b", [])] ("a", ["b"])).dependencies = []
          ∧ (mkCouplingReport [("a", ["b"]), ("b", [])] ("a", ["b"])).afferentCoupling = 0 →
          (mkCouplingReport [("a", ["b"]), ("b", [])] ("a", ["b"])).instabilityIndex = 0)) :=
  have hmem : mkCouplingReport [("a", ["b"]), ("b", [])] ("a", ["b"])
      ∈ couplingReports [("a", ["b"]), ("b", [])] :=
    List.mem_map_of_mem _ (by simp)
  ⟨hmem, coupling_instability_spec [("a", ["b"]), ("b", [])] _ hmem⟩

/-- C2 counterexample: in the mapping `a → [a]` (a self-loop), the audit
produces `efferentCoupling = 1` but `afferentCoupling = 0` — the self-dependency
is not counted on the afferent side, contradicting the claim that
`afferentCoupling(m)` is incremented because `m` depends on `m`. -/
theorem coupling_selfloop_cex :
    (couplingReports [("a", ["a"])]).map
      (fun r => (r.efferentCoupling, r.afferentCoupling)) = [(1, 0)] := by decide

/-- C2 amended: a self-dependency is counted in `efferentCoupling` (the
occurrence of `m` in its own list contributes to the list length) but not in
`afferentCoupling`: the afferent scan filters out the module's own entry
(`item.file !== file`), so `afferentCoupling(m)` is unchanged by `m`'s own
dependency list. -/
theorem coupling_selfloop_amended (pre post : DepTree) (m : String) (deps : List String)
    (hm : m ∈ deps) :
    (mkCouplingReport (pre ++ (m, deps) :: post) (m, deps)
        ∈ couplingReports (pre ++ (m, deps) :: post))
    ∧ (mkCouplingReport (pre ++ (m, deps) :: post) (m, deps)).efferentCoupling = deps.length
    ∧ 1 ≤ (mkCouplingReport (pre ++ (m, deps) :: post) (m, deps)).efferentCoupling
    ∧ afferentCoupling (pre ++ (m, deps) :: post) m = afferentCoupling (pre ++ post) m := by
  refine ⟨List.mem_map_of_mem _ (by simp), rfl, ?_, ?_⟩
  · have : deps ≠ [] := List.ne_nil_of_mem hm
    simpa [mkCouplingReport, Nat.succ_le_iff, List.length_pos] using this
  · unfold afferentCoupling
    simp [List.filter_append, List.filter_cons]

/-- C2 witness: the mapping `a → [a]` alone. -/
theorem coupling_selfloop_amended_w :
    ("a" ∈ ["a"])
    ∧ ((mkCouplingReport ([] ++ ("a", ["a"]) :: []) ("a", ["a"])
          ∈ couplingReports ([] ++ ("a", ["a"]) :: []))
      ∧ (mkCouplingReport ([] ++ ("a", ["a"]) :: []) ("a", ["a"])).efferentCoupling =
          (["a"] : List String).length
      ∧ 1 ≤ (mkCouplingReport ([] ++ ("a", ["a"]) :: []) ("a", ["a"])).efferentCoupling
      ∧ afferentCoupling ([] ++ ("a", ["a"]) :: []) "a" = afferentCoupling ([] ++ []) "a") :=
  ⟨by simp, coupling_selfloop_amended [] [] "a" ["a"] (by simp)⟩

/-! ## TreeNormalizer: closed form of `normalizeProjectTree` -/

lemma normalizeProjectTree_foldl (tree : DepTree) (acc : NormalizedTree) :
    tree.foldl
      (fun acc it =>
        { nodes := acc.nodes ++ [it.1]
          edges := acc.edges ++ it.2.map (fun child => (it.1, child)) })
      acc =
    { nodes := acc.nodes ++ tree.map Prod.fst
      edges := acc.edges ++ tree.flatMap (fun it => it.2.map (fun child => (it.1, child))) } := by
  induction tree generalizing acc with
  | nil => simp
  | cons it ts ih =>
    simp only [List.foldl_cons, List.map_cons, List.flatMap_cons, ih]
    simp

lemma normalizeProjectTree_nodes (tree : DepTree) :
    (normalizeProjectTree tree).nodes = treeKeys tree := by
  unfold normalizeProjectTree treeKeys
  split
  · rename_i h
    rw [List.length_eq_zero.mp h]
    rfl
  · rw [normalizeProjectTree_foldl]
    simp

lemma normalizeProjectTree_edges (tree : DepTree) :
    (normalizeProjectTree tree).edges =
      tree.flatMap (fun it => it.2.map (fun child => (it.1, child))) := by
  unfold normalizeProjectTree
  split
  · rename_i h
    rw [List.length_eq_zero.mp h]
    rfl
  · rw [normalizeProjectTree_foldl]
    simp

/-- C7: the tree normalizer returns exactly the mapping's keys as `nodes`, in
key order and without further deduplication, and one `(module, dependency)`
pair per occurrence in declaration order as `edges`; the empty mapping yields
`{nodes: [], edges: []}` (and the function is total, so it never errors). -/
theorem normalize_tree_spec (tree : DepTree) :
    (normalizeProjectTree tree).nodes = treeKeys tree
    ∧ (normalizeProjectTree tree).edges =
        tree.flatMap (fun it => it.2.map (fun child => (it.1, child)))
    ∧ normalizeProjectTree [] = { nodes := [], edges := [] } :=
  ⟨normalizeProjectTree_nodes tree, normalizeProjectTree_edges tree, rfl⟩

/-! ## Coupling conservation (C6) -/

lemma sum_map_add_nat {α : Type} (L : List α) (g h : α → ℕ) :
    (L.map (fun x => g x + h x)).sum = (L.map g).sum + (L.map h).sum := by
  induction L with
  | nil => simp
  | cons a l ih => simp [ih]; omega

lemma sum_map_ite_eq_countP {α : Type} (L : List α) (p : α → Bool) :
    (L.map (fun x => if p x then 1 else 0)).sum = L.countP p := by
  induction L with
  | nil => simp
  | cons a l ih =>
    simp only [List.map_cons, List.sum_cons, List.countP_cons, ih]
    exact Nat.add_comm _ _

lemma sum_countP_comm {α β : Type} (L : List α) (t : List β) (f : α → β → Bool) :
    (L.map (fun m => t.countP (f m))).sum = (t.map (fun it => L.countP (fun m => f m it))).sum := by
  induction t with
  | nil => simp
  | cons it ts ih =>
    simp only [List.countP_cons, List.map_cons, List.sum_cons]
    rw [sum_map_add_nat, ih, sum_map_ite_eq_countP]
    omega

lemma contains_eq_decide_mem (d : List String) (m : String) :
    d.contains m = decide (m ∈ d) := by
  rw [show d.contains m = d.elem m from rfl, List.elem_eq_mem]

lemma countP_keys_of_closed (keys : List String) (f : String) (d : List String)
    (hkeys : keys.Nodup) (hd : d.Nodup) (hsub : ∀ x ∈ d, x ∈ keys) (hf : f ∉ d) :
    keys.countP (fun m => f != m && d.contains m) = d.length := by
  rw [List.countP_eq_length_filter]
  have hfil : (keys.filter (fun m => f != m && d.contains m)).Nodup := hkeys.filter _
  have hmemiff : ∀ m, m ∈ keys.filter (fun m => f != m && d.contains m) ↔ m ∈ d := by
    intro m
    rw [List.mem_filter]
    constructor
    · rintro ⟨-, h⟩
      simp only [Bool.and_eq_true, contains_eq_decide_mem, decide_eq_true_eq] at h
      exact h.2
    · intro hmd
      refine ⟨hsub m hmd, ?_⟩
      have hne : f ≠ m := fun he => hf (he ▸ hmd)
      simp [hne, contains_eq_decide_mem, hmd]
  have hfin : (keys.filter (fun m => f != m && d.contains m)).toFinset = d.toFinset := by
    apply Finset.ext
    intro a
    simp only [List.mem_toFinset]
    exact hmemiff a
  have h1 := List.toFinset_card_of_nodup hfil
  have h2 := List.toFinset_card_of_nodup hd
  rw [hfin, h2] at h1
  exact h1.symm

lemma sumEfferent_eq (tree : DepTree) :
    sumEfferent tree = (tree.map (fun it => it.2.length)).sum := by
  unfold sumEfferent couplingReports
  rw [List.map_map]
  rfl

lemma edgePairCount_eq (tree : DepTree) :
    edgePairCount tree = (tree.map (fun it => it.2.length)).sum := by
  unfold edgePairCount
  rw [normalizeProjectTree_edges, List.length_flatMap]
  congr 1
  apply List.map_congr_left
  intro it _
  simp

lemma sumAfferent_eq (tree : DepTree) :
    sumAfferent tree =
      ((treeKeys tree).map
        (fun m => tree.countP (fun it => it.1 != m && it.2.contains m))).sum := by
  unfold sumAfferent couplingReports treeKeys
  rw [List.map_map, List.map_map]
  congr 1
  apply List.map_congr_left
  intro it _
  simp only [Function.comp_apply, mkCouplingReport, afferentCoupling]
  rw [List.countP_eq_length_filter]

/-- C6 counterexample: the mapping `a → [b]` (no self-loops) has
`Σ efferentCoupling = 1` but `Σ afferentCoupling = 0` while the total
`(module, dependency)` pair count is `1` — the dependency `b` is not a key of
the mapping, so its incoming edge is never seen by the afferent scan. -/
theorem coupling_conservation_cex :
    sumEfferent [("a", ["b"])] = 1 ∧ sumAfferent [("a", ["b"])] = 0
    ∧ edgePairCount [("a", ["b"])] = 1 := by decide

/-- C6 amended: for an adjacency mapping with distinct keys, duplicate-free
dependency lists, every dependency itself a key, and no self-loops,
`Σ efferentCoupling = Σ afferentCoupling = total edge count`. -/
theorem coupling_conservation_amended (tree : DepTree)
    (hkeys : (treeKeys tree).Nodup)
    (hnodup : ∀ it ∈ tree, (it.2 : List String).Nodup)
    (hclosed : ∀ it ∈ tree, ∀ x ∈ it.2, x ∈ treeKeys tree)
    (hnoself : ∀ it ∈ tree, it.1 ∉ it.2) :
    sumEfferent tree = edgePairCount tree ∧ sumAfferent tree = edgePairCount tree := by
  have heff := sumEfferent_eq tree
  have hedge := edgePairCount_eq tree
  refine ⟨by rw [heff, hedge], ?_⟩
  rw [sumAfferent_eq, hedge]
  rw [sum_countP_comm]
  congr 1
  apply List.map_congr_left
  intro it hit
  exact countP_keys_of_closed (treeKeys tree) it.1 it.2 hkeys (hnodup it hit)
    (hclosed it hit) (hnoself it hit)

/-- C6 witness: the two-cycle mapping `a → [b], b → [a]`, where both sums and
the edge count are `2`. -/
theorem coupling_conservation_amended_w :
    ((treeKeys [("a", ["b"]), ("b", ["a"])]).Nodup
      ∧ (∀ it ∈ ([("a", ["b"]), ("b", ["a"])] : DepTree), (it.2 : List String).Nodup)
      ∧ (∀ it ∈ ([("a", ["b"]), ("b", ["a"])] : DepTree), ∀ x ∈ it.2,
          x ∈ treeKeys [("a", ["b"]), ("b", ["a"])])
      ∧ (∀ it ∈ ([("a", ["b"]), ("b", ["a"])] : DepTree), it.1 ∉ it.2))
    ∧ (sumEfferent [("a", ["b"]), ("b", ["a"])] = edgePairCount [("a", ["b"]), ("b", ["a"])]
      ∧ sumAfferent [("a", ["b"]), ("b", ["a"])] = edgePairCount [("a", ["b"]), ("b", ["a"])]) :=
  ⟨⟨by decide, by decide, by decide, by decide⟩,
    coupling_conservation_amended [("a", ["b"]), ("b", ["a"])]
      (by decide) (by decide) (by decide) (by decide)⟩

/-! ## The modularity pipeline: SVG layout recovery, GraphModel, metrics -/

/-- A `title`/`x`/`y` record recovered from the SVG diagram by
`retrieveProjectTreeData`. -/
structure SvgEntry where
  title : String
  x : ℚ
  y : ℚ
deriving DecidableEq

/-- One `<g>` node of the parsed SVG (`result.svg.g[0].g[i]`): an optional
title string (`node.title?.[0]`) and an optional text attribute record
(`node.text?.[0].$`, giving the `x`/`y` coordinates). -/
structure SvgNode where
  title : Option String
  text : Option (ℚ × ℚ)
deriving DecidableEq

/-- Outcome of handing the SVG buffer to the XML parser: either the parse (or
the expected `svg.g[0].g` shape) fails with an exception, or it yields the
list of `<g>` nodes. -/
inductive SvgParse where
  | failure
  | success (nodes : List SvgNode)
deriving DecidableEq

/-- Loop body of `retrieveProjectTreeData`: skip a node whose title is missing
or empty, skip a node without a text attribute, otherwise record
`{title, x, y}`. -/
def svgStep (acc : List SvgEntry) (node : SvgNode) : List SvgEntry :=
  match node.title with
  | none => acc
  | some t =>
    if t.length = 0 then acc
    else
      match node.text with
      | none => acc
      | some xy => acc ++ [⟨t, xy.1, xy.2⟩]

/-- `CodeModularityAuditor.retrieveProjectTreeData`: on a parse failure the
`catch` swallows the exception and returns `null` (`none`) — the function
never throws; otherwise the loop collects title and coordinates of every node
with a non-empty title and a text attribute, in document order. -/
def retrieveProjectTreeData (p : SvgParse) : Option (List SvgEntry) :=
  match p with
  | .failure => none
  | .success nodes => some (nodes.foldl svgStep [])

/-- Modelled from the spec: the GraphModel data structure (§4.2; realized in
the source by the external `graphology` package, whose code is not among this
repository's sources): a directed graph, nodes keyed by module identifier with
`{x, y}` attributes, self-loops permitted, no parallel edges. Node and edge
lists keep insertion order. -/
structure GraphModel where
  nodes : List (String × ℚ × ℚ)
  edges : List (String × String)
deriving DecidableEq

/-- The freshly constructed empty graph (`new Graph(GRAPH_OPTIONS)`). -/
def GraphModel.empty : GraphModel := ⟨[], []⟩

/-- Whether a node with the given identifier is present. -/
def hasNode (g : GraphModel) (id : String) : Bool :=
  g.nodes.any (fun nd => nd.1 == id)

/-- Whether the directed edge `(s, t)` is present. -/
def hasEdge (g : GraphModel) (s t : String) : Bool :=
  g.edges.contains (s, t)

/-- Modelled from the spec: `addNode(id, attrs?)` — no-op if the node already
exists (§4.2). -/
def addNode (g : GraphModel) (id : String) (x y : ℚ) : GraphModel :=
  if hasNode g id then g else { g with nodes := g.nodes ++ [(id, x, y)] }

/-- Modelled from the spec: `addEdge(source, target)` — fails silently (no-op)
when either endpoint is absent from the node set or the edge already exists;
no error signal of any kind (§4.2). -/
def addEdge (g : GraphModel) (s t : String) : GraphModel :=
  if hasNode g s && hasNode g t && !hasEdge g s t then
    { g with edges := g.edges ++ [(s, t)] }
  else g

/-- The node-insertion loop of `startAudit`: for each module name, in the
given (already reversed) order, look up its diagram entry by title and add a
node carrying the recovered coordinates; names without a matching diagram
entry are skipped without signal. -/
def insertNodes (data : List SvgEntry) (names : List String) : GraphModel :=
  names.foldl
    (fun g n =>
      match data.find? (fun e => e.title == n) with
      | some e => addNode g e.title e.x e.y
      | none => g)
    GraphModel.empty

/-- The edge-insertion loop of `startAudit`: add every normalized edge in the
given order (`edges.filter(item => item)` keeps every pair, a JS array being
always truthy). -/
def insertEdges (g : GraphModel) (es : List (String × String)) : GraphModel :=
  es.foldl (fun g e => addEdge g e.1 e.2) g

/-- Graph construction of `startAudit` from the normalized tree and the
recovered diagram entries. `nodes.filter(item => item)` keeps exactly the
non-empty module names (JS string truthiness), and both loops run over the
`.reverse()` of the normalized lists. -/
def buildProjectGraph (tree : DepTree) (data : List SvgEntry) : GraphModel :=
  insertEdges
    (insertNodes data
      (((normalizeProjectTree tree).nodes.filter (fun n => n.length != 0)).reverse))
    (normalizeProjectTree tree).edges.reverse

/-- In-degree of `v`: edges ending at `v` (a self-loop counts once). -/
def inDegree (g : GraphModel) (v : String) : Nat :=
  (g.edges.filter (fun e => e.2 == v)).length

/-- Out-degree of `v`: edges starting at `v` (a self-loop counts once). -/
def outDegree (g : GraphModel) (v : String) : Nat :=
  (g.edges.filter (fun e => e.1 == v)).length

/-- Modelled from the spec: the centrality normalization divisor
`max(1, nodeCount - 1)` (§4.6; the calculator is realized in the source by
`graphology-metrics`, not among this repository's sources). -/
def centralityDivisor (g : GraphModel) : Nat :=
  max 1 (g.nodes.length - 1)

/-- Modelled from the spec: `degreeCentrality = (inDegree + outDegree) / max(1, n-1)`
per node (§4.6). -/
def degreeCentralityMap (g : GraphModel) : List (String × ℚ) :=
  g.nodes.map (fun nd =>
    (nd.1, ((inDegree g nd.1 + outDegree g nd.1 : ℕ) : ℚ) / (centralityDivisor g : ℚ)))

/-- Modelled from the spec: `inDegreeCentrality = inDegree / max(1, n-1)` (§4.6). -/
def inDegreeCentralityMap (g : GraphModel) : List (String × ℚ) :=
  g.nodes.map (fun nd => (nd.1, ((inDegree g nd.1 : ℕ) : ℚ) / (centralityDivisor g : ℚ)))

/-- Modelled from the spec: `outDegreeCentrality = outDegree / max(1, n-1)` (§4.6). -/
def outDegreeCentralityMap (g : GraphModel) : List (String × ℚ) :=
  g.nodes.map (fun nd => (nd.1, ((outDegree g nd.1 : ℕ) : ℚ) / (centralityDivisor g : ℚ)))

/-- Modelled from the spec: `density = edgeCount / (n·(n-1))`, `0` when the
graph has at most one node (§4.7; realized by `graphology-metrics`). -/
def graphDensity (g : GraphModel) : ℚ :=
  if g.nodes.length ≤ 1 then 0
  else (g.edges.length : ℚ) / ((g.nodes.length : ℚ) * ((g.nodes.length : ℚ) - 1))

/-! ## Community detection (spec-modelled) and the audit orchestrator -/

/-- Community assigned to `v` by an assignment list (first entry wins; a node
absent from the assignment reads as community `0`). -/
def communityOf (part : List (String × Nat)) (v : String) : Nat :=
  match part.find? (fun p => p.1 == v) with
  | some p => p.2
  | none => 0

/-- Directed modularity of a partition at resolution `γ`:
`Q = Σ_c ( e_c/m − γ · (out_c/m) · (in_c/m) )` where `m` is the edge count,
`e_c` the number of intra-community edges of `c`, and `out_c`/`in_c` the total
out-degree resp. in-degree of the nodes of `c`; `0` on an edgeless graph. -/
def modularityScore (g : GraphModel) (γ : ℚ) (part : List (String × Nat)) : ℚ :=
  if g.edges.length = 0 then 0
  else
    (((part.map (fun p => p.2)).dedup).map
      (fun c =>
        let m : ℚ := (g.edges.length : ℚ)
        let intra : ℚ := ((g.edges.filter (fun e =>
          communityOf part e.1 == c && communityOf part e.2 == c)).length : ℚ)
        let outc : ℚ := (((g.nodes.filter (fun nd => communityOf part nd.1 == c)).map
          (fun nd => outDegree g nd.1)).sum : ℕ)
        let inc : ℚ := (((g.nodes.filter (fun nd => communityOf part nd.1 == c)).map
          (fun nd => inDegree g nd.1)).sum : ℕ)
        intra / m - γ * (outc / m) * (inc / m))).sum

/-- Candidate communities for moving `v`: the communities of its out-neighbors
then of its in-neighbors, in edge insertion order, deduplicated keeping first
occurrences — a stable, insertion-based order. -/
def candidateCommunities (g : GraphModel) (part : List (String × Nat)) (v : String) :
    List Nat :=
  ((g.edges.filter (fun e => e.1 == v)).map (fun e => communityOf part e.2)
    ++ (g.edges.filter (fun e => e.2 == v)).map (fun e => communityOf part e.1)).dedup

/-- Reassign `v` to community `c`. -/
def moveNode (part : List (String × Nat)) (v : String) (c : Nat) : List (String × Nat) :=
  part.map (fun p => if p.1 == v then (p.1, c) else p)

/-- Greedy step for one node: move `v` to the candidate community with the
greatest strict modularity improvement; on ties the first candidate in the
stable candidate order wins, and `v` stays put when no move strictly improves
modularity. -/
def bestMove (g : GraphModel) (γ : ℚ) (part : List (String × Nat)) (v : String) :
    List (String × Nat) :=
  match (candidateCommunities g part v).foldl
    (fun acc c =>
      let q := modularityScore g γ (moveNode part v c)
      match acc with
      | none => if modularityScore g γ part < q then some (c, q) else none
      | some bq => if bq.2 < q then some (c, q) else some bq)
    none with
  | some bq => moveNode part v bq.1
  | none => part

/-- One full local-moving pass over the nodes in insertion order. -/
def louvainPass (g : GraphModel) (γ : ℚ) (part : List (String × Nat)) :
    List (String × Nat) :=
  g.nodes.foldl (fun p nd => bestMove g γ p nd.1) part

/-- Iterate local-moving passes until a pass changes nothing (fuelled, so the
function is total; the fuel bound exceeds the number of possible passes ever
taken in practice and the fixed point is stable). -/
def louvainLoop (g : GraphModel) (γ : ℚ) : Nat → List (String × Nat) → List (String × Nat)
  | 0, part => part
  | fuel + 1, part =>
    if louvainPass g γ part == part then part
    else louvainLoop g γ fuel (louvainPass g γ part)

/-- Modelled from the spec: the CommunityDetector (§4.5; realized in the
source by `graphology-communities-louvain`, not among this repository's
sources): greedy modularity maximization in which every node starts in its own
singleton community (indexed by node insertion order) and nodes are repeatedly
moved, in node insertion order, to the neighboring community that most
increases modularity, until a pass moves nothing. All tie-breaking uses the
stable insertion order — no randomized or hash-dependent choice. Returns the
partition together with its modularity score. -/
def louvainDetailed (g : GraphModel) (γ : ℚ) : List (String × Nat) × ℚ :=
  let init := g.nodes.enum.map (fun p => (p.2.1, p.1))
  let part := louvainLoop g γ (g.nodes.length * g.nodes.length + 1) init
  (part, modularityScore g γ part)

/-- `LOUVAIN_ALGO_OPTIONS.resolution = 0.98`. -/
def louvainResolution : ℚ := 98 / 100

/-- The result bundle assembled by `CodeModularityAuditor.startAudit` on
success: the tree, the graph, the Louvain details, the density and the three
centrality maps. -/
structure AuditBundle where
  tree : DepTree
  graph : GraphModel
  communities : List (String × Nat)
  modularity : ℚ
  density : ℚ
  degreeCentrality : List (String × ℚ)
  inDegreeCentrality : List (String × ℚ)
  outDegreeCentrality : List (String × ℚ)
deriving DecidableEq

/-- `startAudit` either returns the empty object `{}` or a full bundle. -/
inductive AuditResult where
  | empty
  | bundle (b : AuditBundle)
deriving DecidableEq

/-- Whether an audit result is a full bundle (rather than `{}`). -/
def AuditResult.isBundle : AuditResult → Bool
  | .empty => false
  | .bundle _ => true

/-- Metric computation over a finished graph, as `startAudit` assembles it. -/
def mkAuditBundle (tree : DepTree) (g : GraphModel) : AuditBundle :=
  { tree := tree
    graph := g
    communities := (louvainDetailed g louvainResolution).1
    modularity := (louvainDetailed g louvainResolution).2
    density := graphDensity g
    degreeCentrality := degreeCentralityMap g
    inDegreeCentrality := inDegreeCentralityMap g
    outDegreeCentrality := outDegreeCentralityMap g }

/-- `CodeModularityAuditor.startAudit`. Collaborator outputs are inputs of the
model: `treeO = none` models a falsy Madge result or tree, and `svgO` models
the SVG step — `none` for a falsy visualization buffer, `some p` for a present
buffer whose parse outcome is `p`. The body mirrors the source: empty checks
return `{}`; the tree is normalized; layout data is recovered; nodes and then
edges are inserted (graphology operations spec-modelled above); metrics are
computed into a bundle. When `retrieveProjectTreeData` returns `null` and at
least one non-empty module name exists, the first node-loop iteration
dereferences `null` (`projectTreeData.find`), and the resulting TypeError is
caught by the surrounding try/catch, which returns `{}`; if every module name
is empty (all filtered out by JS string truthiness) the `null` is never
touched and the run proceeds with an empty node set. -/
def startAudit (treeO : Option DepTree) (svgO : Option SvgParse) : AuditResult :=
  match treeO with
  | none => .empty
  | some tree =>
    if tree.length = 0 then .empty
    else
      match svgO with
      | none => .empty
      | some svgp =>
        match retrieveProjectTreeData svgp with
        | none =>
          if ((normalizeProjectTree tree).nodes.filter (fun n => n.length != 0)).isEmpty then
            .bundle (mkAuditBundle tree (buildProjectGraph tree []))
          else .empty
        | some data => .bundle (mkAuditBundle tree (buildProjectGraph tree data))

-- sanity: the pipeline on a tiny healthy input produces a bundle
example :
    (startAudit (some [("a", [])])
      (some (SvgParse.success [⟨some "a", some (0, 0)⟩]))).isBundle = true := rfl

/-- C5: the modularity orchestrator returns the empty object — never `null`
and never a thrown error (the model is a total function into `AuditResult`) —
whenever the extractor yields no result, the adjacency mapping has zero keys,
or the modeled mid-run error occurs (the layout data is `null` and the node
loop dereferences it, the TypeError being caught at the orchestrator
boundary); in particular an empty adjacency mapping yields `{}`. -/
theorem modularity_empty_result_spec (svgO : Option SvgParse) (tree : DepTree)
    (svgp : SvgParse) :
    startAudit none svgO = .empty
    ∧ startAudit (some []) svgO = .empty
    ∧ (tree.length = 0 → startAudit (some tree) svgO = .empty)
    ∧ (retrieveProjectTreeData svgp = none →
        ((normalizeProjectTree tree).nodes.filter (fun n => n.length != 0)).isEmpty = false →
        startAudit (some tree) (some svgp) = .empty) := by
  refine ⟨rfl, ?_, ?_, ?_⟩
  · cases svgO <;> rfl
  · intro h
    cases svgO <;> simp [startAudit, h]
  · intro hfail hlive
    by_cases h : tree.length = 0
    · simp [startAudit, h]
    · simp [startAudit, h, hfail, hlive]

/-- C5 witness: the extractor failure, the empty mapping, and the mapping
`a → []` with a failed SVG parse all yield `{}`. -/
theorem modularity_empty_result_spec_w :
    (([] : DepTree).length = 0)
    ∧ retrieveProjectTreeData SvgParse.failure = none
    ∧ ((normalizeProjectTree [("a", [])]).nodes.filter
        (fun n => n.length != 0)).isEmpty = false
    ∧ startAudit none (some SvgParse.failure) = .empty
    ∧ startAudit (some []) (some SvgParse.failure) = .empty
    ∧ startAudit (some [("a", [])]) (some SvgParse.failure) = .empty :=
  have h0 : ([] : DepTree).length = 0 := rfl
  have h1 : retrieveProjectTreeData SvgParse.failure = none := rfl
  have h2 : ((normalizeProjectTree [("a", [])]).nodes.filter
      (fun n => n.length != 0)).isEmpty = false := by decide
  have hmain := modularity_empty_result_spec (some SvgParse.failure) [("a", [])]
    SvgParse.failure
  ⟨h0, h1, h2, hmain.1, hmain.2.1, hmain.2.2.2 h1 h2⟩

/-- C3 counterexample: for the non-empty mapping `a → []` and an SVG whose
parse fails (the layout resolver returns `null`), the audit returns `{}` — it
does not return a result bundle without coordinates, so layout failure does
prevent the computation of the graph metrics. -/
theorem layout_failure_cex :
    (startAudit (some [("a", [])]) (some SvgParse.failure)).isBundle = false := rfl

/-- C3 amended: the layout resolver itself never throws — on a parse failure
it returns `null` — but layout recovery failure does block metric computation:
with a non-empty adjacency mapping, an absent diagram makes `startAudit`
return `{}`, and a `null` parse result together with at least one non-empty
module name also makes `startAudit` return `{}`; no metric is computed in
either case. -/
theorem layout_failure_amended (tree : DepTree) (svgp : SvgParse)
    (hne : tree.length ≠ 0)
    (hlive : ((normalizeProjectTree tree).nodes.filter
      (fun n => n.length != 0)).isEmpty = false)
    (hfail : retrieveProjectTreeData svgp = none) :
    retrieveProjectTreeData SvgParse.failure = none
    ∧ startAudit (some tree) none = .empty
    ∧ startAudit (some tree) (some svgp) = .empty := by
  refine ⟨rfl, ?_, ?_⟩
  · simp [startAudit, hne]
  · simp [startAudit, hne, hfail, hlive]

/-- C3 witness: the mapping `a → []` with a failed SVG parse. -/
theorem layout_failure_amended_w :
    (([("a", [])] : DepTree).length ≠ 0
      ∧ ((normalizeProjectTree [("a", [])]).nodes.filter
          (fun n => n.length != 0)).isEmpty = false
      ∧ retrieveProjectTreeData SvgParse.failure = none)
    ∧ (retrieveProjectTreeData SvgParse.failure = none
      ∧ startAudit (some [("a", [])]) none = .empty
      ∧ startAudit (some [("a", [])]) (some SvgParse.failure) = .empty) :=
  ⟨⟨by decide, by decide, rfl⟩,
    layout_failure_amended [("a", [])] SvgParse.failure (by decide) (by decide) rfl⟩

/-- C4: adding an edge whose source or target is absent from the node set, or
whose ordered pair already exists, is a silent no-op — the graph is returned
unchanged with no error signal (spec-modelled `addEdge`, §4.2) — and the
metrics over the remaining graph are still computed: with a non-empty mapping
and a successful layout parse, `startAudit` returns the full bundle over the
graph in which such edges were simply dropped. -/
theorem graph_addedge_noop_spec (g : GraphModel) (s t : String)
    (hbad : hasNode g s = false ∨ hasNode g t = false ∨ hasEdge g s t = true)
    (tree : DepTree) (svgp : SvgParse) (data : List SvgEntry)
    (hne : tree.length ≠ 0)
    (hdata : retrieveProjectTreeData svgp = some data) :
    addEdge g s t = g
    ∧ startAudit (some tree) (some svgp) =
        .bundle (mkAuditBundle tree (buildProjectGraph tree data)) := by
  constructor
  · unfold addEdge
    rcases hbad with h | h | h <;> simp [h]
  · simp [startAudit, hne, hdata]

/-- C4 witness: dropping the edge `(a, b)` on the empty graph, inside the run
on the mapping `a → []` with a one-entry diagram. -/
theorem graph_addedge_noop_spec_w :
    (hasNode GraphModel.empty "a" = false
      ∧ ([("a", [])] : DepTree).length ≠ 0
      ∧ retrieveProjectTreeData (SvgParse.success [⟨some "a", some (0, 0)⟩]) =
          some [⟨"a", 0, 0⟩])
    ∧ (addEdge GraphModel.empty "a" "b" = GraphModel.empty
      ∧ startAudit (some [("a", [])]) (some (SvgParse.success [⟨some "a", some (0, 0)⟩])) =
          .bundle (mkAuditBundle [("a", [])]
            (buildProjectGraph [("a", [])] [⟨"a", 0, 0⟩]))) :=
  ⟨⟨rfl, by decide, rfl⟩,
    graph_addedge_noop_spec GraphModel.empty "a" "b" (Or.inl rfl)
      [("a", [])] (SvgParse.success [⟨some "a", some (0, 0)⟩]) [⟨"a", 0, 0⟩]
      (by decide) rfl⟩

/-- C8: community detection is deterministic — for a fixed graph and fixed
resolution, two runs of `louvainDetailed` produce an identical partition and
an identical modularity score. The spec-modelled detector is a pure function
whose tie-breaking uses only node and edge insertion order, so no run-to-run
variation source exists. -/
theorem community_detection_deterministic (g : GraphModel) (γ : ℚ) :
    (louvainDetailed g γ).1 = (louvainDetailed g γ).1
    ∧ (louvainDetailed g γ).2 = (louvainDetailed g γ).2 :=
  ⟨rfl, rfl⟩

/-! ## Node membership in the constructed graph (C10) -/

lemma svgFold_title_length (nodes : List SvgNode) (acc : List SvgEntry)
    (hacc : ∀ e ∈ acc, e.title.length ≠ 0) :
    ∀ e ∈ nodes.foldl svgStep acc, e.title.length ≠ 0 := by
  induction nodes generalizing acc with
  | nil => simpa using hacc
  | cons nd ns ih =>
    simp only [List.foldl_cons]
    apply ih
    intro e he
    unfold svgStep at he
    rcases nd with ⟨titleO, textO⟩
    cases titleO with
    | none => exact hacc e he
    | some t =>
      simp only at he
      by_cases ht : t.length = 0
      · rw [if_pos ht] at he
        exact hacc e he
      · rw [if_neg ht] at he
        cases textO with
        | none => exact hacc e he
        | some xy =>
          simp only [List.mem_append, List.mem_singleton] at he
          rcases he with he | he
          · exact hacc e he
          · subst he
            exact ht

lemma retrieve_title_length (p : SvgParse) (data : List SvgEntry)
    (h : retrieveProjectTreeData p = some data) :
    ∀ e ∈ data, e.title.length ≠ 0 := by
  cases p with
  | failure => simp [retrieveProjectTreeData] at h
  | success nodes =>
    simp only [retrieveProjectTreeData, Option.some.injEq] at h
    subst h
    exact svgFold_title_length nodes [] (by simp)

lemma addNode_hasNode (g : GraphModel) (id : String) (x y : ℚ) (m : String) :
    hasNode (addNode g id x y) m = true ↔ (hasNode g m = true ∨ id = m) := by
  unfold addNode
  by_cases h : hasNode g id = true
  · rw [if_pos h]
    constructor
    · exact Or.inl
    · rintro (hm | rfl)
      · exact hm
      · exact h
  · rw [if_neg h]
    unfold hasNode at *
    simp [List.any_append]

lemma addEdge_nodes (g : GraphModel) (s t : String) : (addEdge g s t).nodes = g.nodes := by
  unfold addEdge
  split <;> rfl

lemma insertEdges_nodes (g : GraphModel) (es : List (String × String)) :
    (insertEdges g es).nodes = g.nodes := by
  induction es generalizing g with
  | nil => rfl
  | cons e es ih =>
    unfold insertEdges at *
    simp only [List.foldl_cons]
    rw [ih, addEdge_nodes]

lemma hasNode_congr_nodes (g g2 : GraphModel) (h : g.nodes = g2.nodes) (m : String) :
    hasNode g m = hasNode g2 m := by
  unfold hasNode
  rw [h]

lemma insertNodes_go_hasNode (data : List SvgEntry) (names : List String)
    (g : GraphModel) (m : String) :
    hasNode (names.foldl (fun g n =>
      match data.find? (fun e => e.title == n) with
      | some e => addNode g e.title e.x e.y
      | none => g) g) m = true ↔
    (hasNode g m = true ∨ (m ∈ names ∧ ∃ e ∈ data, e.title = m)) := by
  induction names generalizing g with
  | nil => simp
  | cons n ns ih =>
    simp only [List.foldl_cons]
    rw [ih]
    cases hf : data.find? (fun e => e.title == n) with
    | none =>
      have hnone : ∀ e ∈ data, e.title ≠ n := by
        intro e he heq
        have := List.find?_eq_none.mp hf e he
        simp [heq] at this
      constructor
      · rintro (hg | ⟨hm, hex⟩)
        · exact Or.inl hg
        · exact Or.inr ⟨List.mem_cons_of_mem _ hm, hex⟩
      · rintro (hg | ⟨hm, e, he, htitle⟩)
        · exact Or.inl hg
        · rcases List.mem_cons.mp hm with rfl | hm
          · exact absurd htitle (hnone e he)
          · exact Or.inr ⟨hm, e, he, htitle⟩
    | some e =>
      have hmem : e ∈ data := List.mem_of_find?_eq_some hf
      have htitle : e.title = n := by
        have := List.find?_some hf
        simpa using this
      rw [addNode_hasNode]
      constructor
      · rintro ((hg | hem) | ⟨hm, hex⟩)
        · exact Or.inl hg
        · have hmn : m = n := hem ▸ htitle
          exact Or.inr ⟨by rw [hmn]; exact List.mem_cons_self _ _, e, hmem, hem⟩
        · exact Or.inr ⟨List.mem_cons_of_mem _ hm, hex⟩
      · rintro (hg | ⟨hm, e2, hmem2, htitle2⟩)
        · exact Or.inl (Or.inl hg)
        · rcases List.mem_cons.mp hm with rfl | hm
          · exact Or.inl (Or.inr htitle)
          · exact Or.inr ⟨hm, e2, hmem2, htitle2⟩

lemma hasNode_insertNodes (data : List SvgEntry) (names : List String) (m : String) :
    hasNode (insertNodes data names) m = true ↔
      (m ∈ names ∧ ∃ e ∈ data, e.title = m) := by
  unfold insertNodes
  rw [insertNodes_go_hasNode]
  simp [GraphModel.empty, hasNode]

lemma hasNode_buildProjectGraph (tree : DepTree) (data : List SvgEntry) (m : String) :
    hasNode (buildProjectGraph tree data) m = true ↔
      (m ∈ (normalizeProjectTree tree).nodes ∧ m.length ≠ 0 ∧ ∃ e ∈ data, e.title = m) := by
  unfold buildProjectGraph
  rw [hasNode_congr_nodes _ _ (insertEdges_nodes _ _), hasNode_insertNodes]
  simp only [List.mem_reverse, List.mem_filter, bne_iff_ne, ne_eq, and_assoc]

/-- C10: a module identifier from the adjacency mapping is added as a node of
the dependency graph if and only if coordinate recovery produced an entry
whose title equals that identifier; mapping modules without a matching diagram
entry are silently omitted from the graph's node set. -/
theorem node_iff_diagram_entry (tree : DepTree) (svgp : SvgParse)
    (data : List SvgEntry) (m : String)
    (hdata : retrieveProjectTreeData svgp = some data)
    (hm : m ∈ treeKeys tree) :
    hasNode (buildProjectGraph tree data) m = true ↔ ∃ e ∈ data, e.title = m := by
  rw [hasNode_buildProjectGraph]
  have hnodes : m ∈ (normalizeProjectTree tree).nodes := by
    rw [normalizeProjectTree_nodes]
    exact hm
  constructor
  · rintro ⟨-, -, hex⟩
    exact hex
  · intro hex
    refine ⟨hnodes, ?_, hex⟩
    obtain ⟨e, he, htitle⟩ := hex
    have := retrieve_title_length svgp data hdata e he
    rw [htitle] at this
    exact this

/-- C10 witness: in the mapping `a → [b]` with a diagram entry only for `a`,
module `a` is a node and `b` would not be. -/
theorem node_iff_diagram_entry_w :
    (retrieveProjectTreeData (SvgParse.success [⟨some "a", some (0, 0)⟩]) =
        some [⟨"a", 0, 0⟩]
      ∧ "a" ∈ treeKeys [("a", ["b"])])
    ∧ (hasNode (buildProjectGraph [("a", ["b"])] [⟨"a", 0, 0⟩]) "a" = true ↔
        ∃ e ∈ ([⟨"a", 0, 0⟩] : List SvgEntry), e.title = "a") :=
  ⟨⟨rfl, by decide⟩,
    node_iff_diagram_entry [("a", ["b"])] (SvgParse.success [⟨some "a", some (0, 0)⟩])
      [⟨"a", 0, 0⟩] "a" rfl (by decide)⟩

/-! ## Centrality formulas and range (C9) -/

lemma find?_centrality_map (l : List (String × ℚ × ℚ)) (f : String → ℚ) (v : String)
    (hv : v ∈ l.map (fun nd => nd.1)) :
    (l.map (fun nd => (nd.1, f nd.1))).find? (fun p => p.1 == v) = some (v, f v) := by
  induction l with
  | nil => simp at hv
  | cons nd ns ih =>
    simp only [List.map_cons]
    by_cases h : nd.1 = v
    · rw [List.find?_cons_of_pos]
      · rw [h]
      · simp [h]
    · rw [List.find?_cons_of_neg]
      · apply ih
        simp only [List.map_cons, List.mem_cons] at hv
        rcases hv with hv | hv
        · exact absurd hv.symm h
        · exact hv
      · simp [h]

/-- C9 counterexample graph: two nodes `a` and `b` joined by directed edges in
both directions, built through the spec-modelled graph operations. -/
def centralityCexGraph : GraphModel :=
  addEdge (addEdge (addNode (addNode GraphModel.empty "a" 0 0) "b" 0 0) "a" "b") "b" "a"

lemma centralityCexGraph_eq :
    centralityCexGraph =
      { nodes := [("a", 0, 0), ("b", 0, 0)], edges := [("a", "b"), ("b", "a")] } := by
  decide

/-- C9 counterexample: in the two-node graph with one edge each way, the
degree centrality of each node is `(1 + 1) / max(1, 2 - 1) = 2`, which does
not lie in `[0, 1]`. -/
theorem centrality_range_cex :
    (degreeCentralityMap centralityCexGraph).map Prod.snd = [2, 2]
    ∧ ¬((2 : ℚ) ≤ 1) := by
  constructor
  · rw [centralityCexGraph_eq]
    simp +decide only [degreeCentralityMap, inDegree, outDegree, centralityDivisor,
      List.map_cons, List.map_nil, List.filter_cons, List.filter_nil]
    norm_num
  · norm_num

/-- C9 amended: the three centralities follow the §4.6 formulas with divisor
`max(1, n - 1)`; every value is nonnegative (values can exceed 1 on directed
graphs — see the counterexample); and on a one-node graph with no edges all
three centralities are `0`, with no division by zero. -/
theorem centrality_formula_spec (g : GraphModel) (v : String)
    (hv : v ∈ g.nodes.map (fun nd => nd.1)) :
    (degreeCentralityMap g).find? (fun p => p.1 == v) =
      some (v, ((inDegree g v + outDegree g v : ℕ) : ℚ) / (centralityDivisor g : ℚ))
    ∧ (inDegreeCentralityMap g).find? (fun p => p.1 == v) =
      some (v, ((inDegree g v : ℕ) : ℚ) / (centralityDivisor g : ℚ))
    ∧ (outDegreeCentralityMap g).find? (fun p => p.1 == v) =
      some (v, ((outDegree g v : ℕ) : ℚ) / (centralityDivisor g : ℚ))
    ∧ 0 ≤ ((inDegree g v + outDegree g v : ℕ) : ℚ) / (centralityDivisor g : ℚ)
    ∧ 0 ≤ ((inDegree g v : ℕ) : ℚ) / (centralityDivisor g : ℚ)
    ∧ 0 ≤ ((outDegree g v : ℕ) : ℚ) / (centralityDivisor g : ℚ)
    ∧ (g.nodes.length = 1 → g.edges = [] →
        ((inDegree g v + outDegree g v : ℕ) : ℚ) / (centralityDivisor g : ℚ) = 0
        ∧ ((inDegree g v : ℕ) : ℚ) / (centralityDivisor g : ℚ) = 0
        ∧ ((outDegree g v : ℕ) : ℚ) / (centralityDivisor g : ℚ) = 0) := by
  refine ⟨?_, ?_, ?_, by positivity, by positivity, by positivity, ?_⟩
  · unfold degreeCentralityMap
    exact find?_centrality_map g.nodes
      (fun w => ((inDegree g w + outDegree g w : ℕ) : ℚ) / (centralityDivisor g : ℚ)) v hv
  · unfold inDegreeCentralityMap
    exact find?_centrality_map g.nodes
      (fun w => ((inDegree g w : ℕ) : ℚ) / (centralityDivisor g : ℚ)) v hv
  · unfold outDegreeCentralityMap
    exact find?_centrality_map g.nodes
      (fun w => ((outDegree g w : ℕ) : ℚ) / (centralityDivisor g : ℚ)) v hv
  · intro hn hedges
    simp [inDegree, outDegree, hedges]

/-- C9 witness: the one-node, zero-edge graph containing only `a`. -/
theorem centrality_formula_spec_w :
    ("a" ∈ (addNode GraphModel.empty "a" 0 0).nodes.map (fun nd => nd.1))
    ∧ ((degreeCentralityMap (addNode GraphModel.empty "a" 0 0)).find?
          (fun p => p.1 == "a") =
        some ("a", ((inDegree (addNode GraphModel.empty "a" 0 0) "a"
            + outDegree (addNode GraphModel.empty "a" 0 0) "a" : ℕ) : ℚ) /
          (centralityDivisor (addNode GraphModel.empty "a" 0 0) : ℚ))) :=
  ⟨by decide,
    (centrality_formula_spec (addNode GraphModel.empty "a" 0 0) "a" (by decide)).1⟩
